import Mathlib

/-!
Verification of the peer-to-peer market core (`p2p`): a shallow embedding of
the order book (`p2p/market/order_book.py`), the batch call-auction matcher
(`p2p/market/clearing.py`), the welfare metrics (`p2p/sim/metrics.py`) and the
agent decision code (`p2p/agents/*.py`), together with theorems settling the
frozen behavioural claims about them.

Prices and quantities (Python floats) are embedded as rationals `ℚ`; Python's
`round` (banker's rounding) is embedded exactly on `ℚ`.
-/

namespace P2P

/-- Order side, `Side = Literal["buy", "sell"]`. -/
inductive Side
  | buy
  | sell
deriving DecidableEq, Repr

/-- Embeds the dataclass `Order` of `order_book.py`. -/
structure Order where
  order_id : ℕ
  price_cperkwh : ℚ
  qty_kwh : ℚ
  side : Side
  agent_id : String
  arrival_seq : ℕ
deriving DecidableEq, Repr

/-- Embeds the dataclass `Trade` of `order_book.py`.  Note: this record has
exactly the six fields of the source dataclass; in particular it has no
`bid_price_cperkwh` / `ask_price_cperkwh` attributes. -/
structure Trade where
  price_cperkwh : ℚ
  qty_kwh : ℚ
  buy_agent : String
  sell_agent : String
  maker_order_id : ℕ
  taker_order_id : ℕ
deriving DecidableEq, Repr

/-- Embeds the dataclass `OrderBook` of `order_book.py` (value state). -/
structure OrderBook where
  tick_cents : ℚ := 1/10
  bids : List Order := []
  asks : List Order := []
  id_counter : ℕ := 0
  arrival_counter : ℕ := 0
  trades_log : List Trade := []
deriving DecidableEq, Repr

/-- The freshly constructed `OrderBook()`. -/
def emptyBook : OrderBook := {}

/-- Python's `round(x)` on an exact value: round half to even. -/
def pyRound (x : ℚ) : ℤ :=
  let f : ℤ := ⌊x⌋
  let r : ℚ := x - f
  if r < 1/2 then f
  else if 1/2 < r then f + 1
  else if f % 2 = 0 then f else f + 1

/-- Python's `round(x, 3)`. -/
def pyRound3 (x : ℚ) : ℚ := (pyRound (x * 1000) : ℚ) / 1000

/-- Python's `round(x, 1)`. -/
def pyRound1 (x : ℚ) : ℚ := (pyRound (x * 10) : ℚ) / 10

/-- Embeds `OrderBook._normalize_price`: raises on a negative price, else
snaps to the nearest tick: `round(round(p / tick) * tick, 3)`. -/
def normalizePrice (tick : ℚ) (p : ℚ) : Except String ℚ :=
  if p < 0 then .error "price must be non-negative"
  else .ok (pyRound3 ((pyRound (p / tick) : ℚ) * tick))

/-- A price that `_normalize_price` can produce for the given tick. -/
def IsQuantized (tick p : ℚ) : Prop := ∃ n : ℤ, p = pyRound3 ((n : ℚ) * tick)

/-- Embeds the buy branch of `OrderBook._match`: the incoming buy order
(agent `takerAgent`, id `takerId`, normalized price `p`, remaining quantity
`qty`) repeatedly consumes the head of the resting asks while it crosses.
Returns `(trades, residual incoming qty, residual asks)`. -/
def matchBuy (takerAgent : String) (takerId : ℕ) (p : ℚ) :
    ℚ → List Order → List Trade × ℚ × List Order
  | qty, [] => ([], qty, [])
  | qty, maker :: rest =>
    if 0 < qty ∧ maker.price_cperkwh ≤ p then
      let q := min qty maker.qty_kwh
      let tr : Trade :=
        { price_cperkwh := maker.price_cperkwh
          qty_kwh := q
          buy_agent := takerAgent
          sell_agent := maker.agent_id
          maker_order_id := maker.order_id
          taker_order_id := takerId }
      if maker.qty_kwh - q ≤ 0 then
        let res := matchBuy takerAgent takerId p (qty - q) rest
        (tr :: res.1, res.2.1, res.2.2)
      else
        -- maker only partially consumed: `q = qty`, the incoming order is
        -- exhausted and the loop exits on its next guard check.
        ([tr], qty - q, { maker with qty_kwh := maker.qty_kwh - q } :: rest)
    else ([], qty, maker :: rest)

/-- Embeds the sell branch of `OrderBook._match` (incoming sell vs bids). -/
def matchSell (takerAgent : String) (takerId : ℕ) (p : ℚ) :
    ℚ → List Order → List Trade × ℚ × List Order
  | qty, [] => ([], qty, [])
  | qty, maker :: rest =>
    if 0 < qty ∧ p ≤ maker.price_cperkwh then
      let q := min qty maker.qty_kwh
      let tr : Trade :=
        { price_cperkwh := maker.price_cperkwh
          qty_kwh := q
          buy_agent := maker.agent_id
          sell_agent := takerAgent
          maker_order_id := maker.order_id
          taker_order_id := takerId }
      if maker.qty_kwh - q ≤ 0 then
        let res := matchSell takerAgent takerId p (qty - q) rest
        (tr :: res.1, res.2.1, res.2.2)
      else
        ([tr], qty - q, { maker with qty_kwh := maker.qty_kwh - q } :: rest)
    else ([], qty, maker :: rest)

/-- Embeds `OrderBook._insert_sorted` with `reverse=False` (asks): advance
while `book[pos].price < key or (book[pos].price == key and
book[pos].arrival_seq < order.arrival_seq)`. -/
def insertSortedAsc (o : Order) : List Order → List Order
  | [] => [o]
  | b :: rest =>
    if b.price_cperkwh < o.price_cperkwh ∨
        (b.price_cperkwh = o.price_cperkwh ∧ b.arrival_seq < o.arrival_seq) then
      b :: insertSortedAsc o rest
    else o :: b :: rest

/-- Embeds `OrderBook._insert_sorted` with `reverse=True` (bids). -/
def insertSortedDesc (o : Order) : List Order → List Order
  | [] => [o]
  | b :: rest =>
    if o.price_cperkwh < b.price_cperkwh ∨
        (b.price_cperkwh = o.price_cperkwh ∧ b.arrival_seq < o.arrival_seq) then
      b :: insertSortedDesc o rest
    else o :: b :: rest

/-- Embeds `OrderBook.submit`.  The returned book is the state after the
call; on a raise (`Except.error`) the state is the book as mutated up to the
point of the raise — both validations precede every mutation in the source,
so the error state is the input book unchanged. -/
def submitSt (ob : OrderBook) (agent : String) (side : Side) (price qty : ℚ) :
    OrderBook × Except String (ℕ × List Trade) :=
  if qty ≤ 0 then (ob, .error "qty_kwh must be positive")
  else
    match normalizePrice ob.tick_cents price with
    | .error e => (ob, .error e)
    | .ok p =>
      let oid := ob.id_counter + 1
      let seq := ob.arrival_counter + 1
      match side with
      | .buy =>
        let m := matchBuy agent oid p qty ob.asks
        let incoming : Order :=
          { order_id := oid, price_cperkwh := p, qty_kwh := m.2.1,
            side := .buy, agent_id := agent, arrival_seq := seq }
        let bids' := if 0 < m.2.1 then insertSortedDesc incoming ob.bids else ob.bids
        let ob' : OrderBook := { ob with
          bids := bids', asks := m.2.2, id_counter := oid,
          arrival_counter := seq, trades_log := ob.trades_log ++ m.1 }
        (ob', .ok (oid, m.1))
      | .sell =>
        let m := matchSell agent oid p qty ob.bids
        let incoming : Order :=
          { order_id := oid, price_cperkwh := p, qty_kwh := m.2.1,
            side := .sell, agent_id := agent, arrival_seq := seq }
        let asks' := if 0 < m.2.1 then insertSortedAsc incoming ob.asks else ob.asks
        let ob' : OrderBook := { ob with
          bids := m.2.2, asks := asks', id_counter := oid,
          arrival_counter := seq, trades_log := ob.trades_log ++ m.1 }
        (ob', .ok (oid, m.1))

/-- Embeds `OrderBook.best_bid`. -/
def bestBid (ob : OrderBook) : Option ℚ := ob.bids.head?.map (·.price_cperkwh)

/-- Embeds `OrderBook.best_ask`. -/
def bestAsk (ob : OrderBook) : Option ℚ := ob.asks.head?.map (·.price_cperkwh)

/-- Embeds `OrderBook.cancel`: delete the first resting order with the given
id, searching bids before asks; returns whether one was found. -/
def cancelSt (ob : OrderBook) (oid : ℕ) : OrderBook × Bool :=
  if ob.bids.any (fun o => o.order_id == oid) then
    ({ ob with bids := ob.bids.eraseP (fun o => o.order_id == oid) }, true)
  else if ob.asks.any (fun o => o.order_id == oid) then
    ({ ob with asks := ob.asks.eraseP (fun o => o.order_id == oid) }, true)
  else (ob, false)

/-- `order.qty_kwh = new_qty` on the first order with the given id. -/
def setQtyFirst (oid : ℕ) (q : ℚ) : List Order → List Order
  | [] => []
  | o :: rest =>
    if o.order_id = oid then { o with qty_kwh := q } :: rest
    else o :: setQtyFirst oid q rest

/-- Embeds `OrderBook.modify`.  A quantity-only change edits in place
(cancelling when `new_qty ≤ 0`); a price change deletes the order and
resubmits it (the resubmission may itself raise, in which case the deletion
has already happened — the returned book reflects that). -/
def modifySt (ob : OrderBook) (oid : ℕ) (newQty : Option ℚ) (newPrice : Option ℚ) :
    OrderBook × Bool :=
  match (ob.bids.find? (fun o => o.order_id == oid)).orElse
      (fun _ => ob.asks.find? (fun o => o.order_id == oid)) with
  | none => (ob, false)
  | some o =>
    let inBids := ob.bids.any (fun x => x.order_id == oid)
    match newPrice with
    | none =>
      match newQty with
      | none => (ob, false)
      | some q =>
        if q ≤ 0 then
          if inBids then
            ({ ob with bids := ob.bids.eraseP (fun x => x.order_id == oid) }, true)
          else
            ({ ob with asks := ob.asks.eraseP (fun x => x.order_id == oid) }, true)
        else
          if inBids then ({ ob with bids := setQtyFirst oid q ob.bids }, true)
          else ({ ob with asks := setQtyFirst oid q ob.asks }, true)
    | some p =>
      let obDel :=
        if inBids then { ob with bids := ob.bids.eraseP (fun x => x.order_id == oid) }
        else { ob with asks := ob.asks.eraseP (fun x => x.order_id == oid) }
      ((submitSt obDel o.agent_id o.side p (newQty.getD o.qty_kwh)).1, true)

/-! ### Batch call-auction matcher (`clearing.py`) -/

/-- The sort key of `clearing._sort_bids`: ascending in `(-price, arrival_seq)`. -/
def bidRel (x y : Order) : Prop :=
  y.price_cperkwh < x.price_cperkwh ∨
    (x.price_cperkwh = y.price_cperkwh ∧ x.arrival_seq ≤ y.arrival_seq)

/-- The sort key of `clearing._sort_asks`: ascending in `(price, arrival_seq)`. -/
def askRel (x y : Order) : Prop :=
  x.price_cperkwh < y.price_cperkwh ∨
    (x.price_cperkwh = y.price_cperkwh ∧ x.arrival_seq ≤ y.arrival_seq)

instance : DecidableRel bidRel := fun x y => by unfold bidRel; infer_instance

instance : DecidableRel askRel := fun x y => by unfold askRel; infer_instance

instance : IsTotal Order bidRel where
  total x y := by
    rcases lt_trichotomy x.price_cperkwh y.price_cperkwh with h | h | h
    · exact Or.inr (Or.inl h)
    · rcases le_total x.arrival_seq y.arrival_seq with hs | hs
      · exact Or.inl (Or.inr ⟨h, hs⟩)
      · exact Or.inr (Or.inr ⟨h.symm, hs⟩)
    · exact Or.inl (Or.inl h)

instance : IsTotal Order askRel where
  total x y := by
    rcases lt_trichotomy x.price_cperkwh y.price_cperkwh with h | h | h
    · exact Or.inl (Or.inl h)
    · rcases le_total x.arrival_seq y.arrival_seq with hs | hs
      · exact Or.inl (Or.inr ⟨h, hs⟩)
      · exact Or.inr (Or.inr ⟨h.symm, hs⟩)
    · exact Or.inr (Or.inl h)

instance : IsTrans Order bidRel where
  trans x y z hxy hyz := by
    rcases hxy with h1 | ⟨e1, s1⟩ <;> rcases hyz with h2 | ⟨e2, s2⟩
    · exact Or.inl (h2.trans h1)
    · exact Or.inl (e2 ▸ h1)
    · exact Or.inl (e1 ▸ h2)
    · exact Or.inr ⟨e1.trans e2, s1.trans s2⟩

instance : IsTrans Order askRel where
  trans x y z hxy hyz := by
    rcases hxy with h1 | ⟨e1, s1⟩ <;> rcases hyz with h2 | ⟨e2, s2⟩
    · exact Or.inl (h1.trans h2)
    · exact Or.inl (e2 ▸ h1)
    · exact Or.inl (e1 ▸ h2)
    · exact Or.inr ⟨e1.trans e2, s1.trans s2⟩

/-- Embeds `clearing._sort_bids` (Python's stable `sorted`). -/
def sortBids (l : List Order) : List Order := List.insertionSort bidRel l

/-- Embeds `clearing._sort_asks`. -/
def sortAsks (l : List Order) : List Order := List.insertionSort askRel l

/-- Embeds the main loop of `clearing._batch_match` on the already sorted
lists.  Arguments: feeder energy cap, energy traded so far, bid list from the
current index on, ask list likewise.  The source checks, in order: the index
bounds, the `bb.price < aa.price` break, the feeder-cap break (`remaining <=
0`), the `qty <= 0` break — and then executes `trades.append(Trade(...,
bid_price_cperkwh=..., ask_price_cperkwh=...))`.  That constructor call
passes keyword arguments the 6-field `Trade` dataclass of `order_book.py`
does not accept, so the first trade ever matched raises `TypeError` and the
loop body never completes an iteration: the function either returns with no
trades or raises. -/
def batchLoop (c : Option ℚ) (traded : ℚ) :
    List Order → List Order → Except String (List Trade × List Order × List Order)
  | [], a => .ok ([], [], a)
  | b, [] => .ok ([], b, [])
  | bb :: btl, aa :: atl =>
    if bb.price_cperkwh < aa.price_cperkwh then .ok ([], bb :: btl, aa :: atl)
    else
      let q0 := min bb.qty_kwh aa.qty_kwh
      let qc : Option ℚ :=
        match c with
        | none => some q0
        | some cv =>
          if max 0 (cv - traded) ≤ 0 then none else some (min q0 (max 0 (cv - traded)))
      match qc with
      | none => .ok ([], bb :: btl, aa :: atl)
      | some q =>
        if q ≤ 0 then .ok ([], bb :: btl, aa :: atl)
        else .error "TypeError: Trade got an unexpected keyword argument bid_price_cperkwh"

/-- Embeds `clearing._batch_match`: sort both sides, run the loop; on a
normal return keep the positive-quantity residuals re-sorted.  Raises
(`Except.error`) as soon as a trade would be constructed. -/
def batchMatch (bids asks : List Order) (cap : Option ℚ) :
    Except String (List Trade × List Order × List Order) :=
  match batchLoop cap 0 (sortBids bids) (sortAsks asks) with
  | .error e => .error e
  | .ok r =>
    .ok (r.1, sortBids (r.2.1.filter (fun o => 0 < o.qty_kwh)),
      sortAsks (r.2.2.filter (fun o => 0 < o.qty_kwh)))

/-- The book-state effect of `clearing.step_interval_call`: union the
interval-starting resting book with the fresh postings and batch-match once
(optionally under the feeder energy cap `cap = feeder_limit_kw *
step_min/60`).  On a normal return the book's resting state is replaced by
the residuals; when `_batch_match` raises, the exception propagates before
`ob.bids`/`ob.asks` are reassigned, so the book is unchanged. -/
def stepCall (ob : OrderBook) (newBids newAsks : List Order) (cap : Option ℚ) :
    OrderBook × Except String (List Trade) :=
  match batchMatch (ob.bids ++ newBids) (ob.asks ++ newAsks) cap with
  | .error e => (ob, .error e)
  | .ok r => ({ ob with bids := r.2.1, asks := r.2.2 }, .ok r.1)

/-! ### Welfare metrics (`metrics.py`) -/

/-- Embeds `metrics.compute_quote_welfare` applied to the `Trade` records the
`OrderBook` produces: the loop body reads `tr.bid_price_cperkwh`, an
attribute the `Trade` dataclass of `order_book.py` does not define, so the
first iteration raises `AttributeError`; only the empty iterable returns. -/
def computeQuoteWelfare : List Trade → Except String ℚ
  | [] => .ok 0
  | _ :: _ => .error "AttributeError: Trade object has no attribute bid_price_cperkwh"

/-- Sort key of the planner's bid list: descending price (ties stable). -/
def pBidRel (x y : ℚ × ℚ) : Prop := y.1 ≤ x.1

/-- Sort key of the planner's ask list: ascending price (ties stable). -/
def pAskRel (x y : ℚ × ℚ) : Prop := x.1 ≤ y.1

instance : DecidableRel pBidRel := fun x y => by unfold pBidRel; infer_instance

instance : DecidableRel pAskRel := fun x y => by unfold pAskRel; infer_instance

instance : IsTotal (ℚ × ℚ) pBidRel := ⟨fun x y => le_total y.1 x.1⟩

instance : IsTotal (ℚ × ℚ) pAskRel := ⟨fun x y => le_total x.1 y.1⟩

instance : IsTrans (ℚ × ℚ) pBidRel := ⟨fun _ _ _ h1 h2 => le_trans h2 h1⟩

instance : IsTrans (ℚ × ℚ) pAskRel := ⟨fun _ _ _ h1 h2 => le_trans h1 h2⟩

/-- Embeds the loop of `metrics.planner_bound_quote_welfare` on the sorted
`(price, qty)` lists; accumulates `(w_bound, traded)`.  (Unlike
`_batch_match`, the planner builds no `Trade` records, so its loop really
iterates.)  The one non-structural case of the source loop is when both
heads keep a positive remainder: that happens exactly when the feeder cap
clamped the quantity, and the next source iteration then breaks with
`remaining == 0`, so the embedding returns at that point. -/
def plannerLoop (cap : Option ℚ) : ℚ → ℚ → List (ℚ × ℚ) → List (ℚ × ℚ) → ℚ × ℚ
  | w, t, [], _ => (w, t)
  | w, t, _, [] => (w, t)
  | w, t, (bp, bq) :: btl, (ap0, aq) :: atl =>
    if bp < ap0 then (w, t)
    else
      let q0 := min bq aq
      let qc : Option ℚ :=
        match cap with
        | none => some q0
        | some c =>
          if max 0 (c - t) ≤ 0 then none else some (min q0 (max 0 (c - t)))
      match qc with
      | none => (w, t)
      | some q =>
        let w' := w + (bp - ap0) * q
        let t' := t + q
        if bq - q ≤ 0 then
          if aq - q ≤ 0 then plannerLoop cap w' t' btl atl
          else plannerLoop cap w' t' btl ((ap0, aq - q) :: atl)
        else
          if aq - q ≤ 0 then plannerLoop cap w' t' ((bp, bq - q) :: btl) atl
          else (w', t')
  termination_by w t b a => b.length + a.length
  decreasing_by all_goals simp_arith

/-- Embeds `metrics.planner_bound_quote_welfare`: sort bids descending and
asks ascending by price, greedily pair while `bid ≥ ask`, optionally capped
by the feeder energy budget.  Returns `(welfare_bound, traded_kwh_bound)`. -/
def plannerBound (bids asks : List Order) (cap : Option ℚ) : ℚ × ℚ :=
  plannerLoop cap 0 0
    (List.insertionSort pBidRel (bids.map fun o => (o.price_cperkwh, o.qty_kwh)))
    (List.insertionSort pAskRel (asks.map fun o => (o.price_cperkwh, o.qty_kwh)))

/-! ### Satisficer (`agents/satisficer.py`), band mode -/

/-- The action dictionary `Satisficer.decide` returns (band mode). -/
inductive SatAction
  | accept (order_id : ℕ) (qty_kwh : ℚ) (offers_seen : ℕ) (price : ℚ) (side : Side)
  | post (offers_seen : ℕ)
deriving DecidableEq, Repr

/-- The crossing test of the band branch: `price <= q_price` for a buyer,
`price >= q_price` for a seller. -/
def crossesQuote (side : Side) (qPrice price : ℚ) : Prop :=
  (side = .buy ∧ price ≤ qPrice) ∨ (side = .sell ∧ qPrice ≤ price)

instance (s : Side) (qP p : ℚ) : Decidable (crossesQuote s qP p) :=
  inferInstanceAs (Decidable ((s = .buy ∧ p ≤ qP) ∨ (s = .sell ∧ qP ≤ p)))

/-- The loop of the band branch of `Satisficer.decide`: scan the opposite
side in the order provided, counting `offers_seen`; skip every offer while
`q_price == 0`; accept the first offer that crosses and lies within the
relative band `|price - q_price| / q_price <= band`. -/
def bandScan (band qPrice qQty : ℚ) (side : Side) : ℕ → List Order → SatAction
  | seen, [] => .post seen
  | seen, o :: rest =>
    if qPrice = 0 then bandScan band qPrice qQty side (seen + 1) rest
    else
      if crossesQuote side qPrice o.price_cperkwh ∧
          |o.price_cperkwh - qPrice| / qPrice ≤ band then
        .accept o.order_id (min qQty o.qty_kwh) (seen + 1) o.price_cperkwh side
      else bandScan band qPrice qQty side (seen + 1) rest

/-- The band branch of `Satisficer.decide`, given the quote `(q_price,
q_qty, side)` returned by `make_quote` and the opposite-side list of the
snapshot (already in book order): `band = tau_percent / 100`. -/
def satisficerBand (tauPercent qPrice qQty : ℚ) (side : Side) (opp : List Order) :
    SatAction :=
  bandScan (tauPercent / 100) qPrice qQty side 0 opp

/-! ### ZIConstrained (`agents/zi.py`) and the process-global random stream

`zi.py` calls the module-level `random.uniform` / `random.choice`: a single
mutable generator shared by the whole process.  The generator is embedded as
a stream of independent draws in `[0, 1)` plus a cursor; each call consumes
draws and advances the shared cursor. -/

/-- The process-global `random` module state. -/
structure GRng where
  stream : ℕ → ℚ
  pos : ℕ

/-- Consume one draw from the global generator. -/
def draw (g : GRng) : ℚ × GRng := (g.stream g.pos, { g with pos := g.pos + 1 })

/-- `random.uniform(a, b)`. -/
def pyUniform (a b : ℚ) (g : GRng) : ℚ × GRng :=
  let (u, g') := draw g
  (a + (b - a) * u, g')

/-- `random.choice((x, y))` on a two-element tuple. -/
def pyChoice2 (x y : Side) (g : GRng) : Side × GRng :=
  let (u, g') := draw g
  (if u < 1/2 then x else y, g')

/-- Construction state of a `ZIConstrained` agent (fields of `Prosumer` that
identify the agent; `make_quote` uses none of them). -/
structure ZIConstrained where
  agent_id : String
  seed : Option ℕ := none

/-- Embeds `ZIConstrained.make_quote`: price uniform in `[10, 25]` rounded
to one decimal, fixed quantity `0.5`, side chosen uniformly — all drawn from
the process-global generator, never from a per-agent source. -/
def ziMakeQuote (_a : ZIConstrained) (g : GRng) : (ℚ × ℚ × Side) × GRng :=
  let (price, g1) := pyUniform 10 25 g
  let (side, g2) := pyChoice2 .buy .sell g1
  ((pyRound1 price, 1/2, side), g2)

/-! ### Reference-aliasing model of `OrderBook.snapshot` (`order_book.py`)

`snapshot()` returns `(list(self.bids), list(self.asks))`: fresh list
objects whose elements are the very same `Order` objects the book holds.  To
express field mutation through the returned lists, the book is modelled with
an explicit store: orders live at references, the bid/ask queues hold
references, and `snapshot` copies the reference lists. -/

/-- Order store plus the two queues of references. -/
structure HeapBook where
  store : ℕ → Order
  bids : List ℕ
  asks : List ℕ

/-- `snapshot()`: fresh pairs of reference lists (shallow copies). -/
def snapshotRefs (hb : HeapBook) : List ℕ × List ℕ := (hb.bids, hb.asks)

/-- Field assignment `order.price_cperkwh = p` through a reference obtained
from a snapshot: updates the shared store. -/
def setOrderPrice (hb : HeapBook) (r : ℕ) (p : ℚ) : HeapBook :=
  { hb with store := fun k =>
      if k = r then { hb.store k with price_cperkwh := p } else hb.store k }

/-- `best_bid()` on the store-based book. -/
def bestBidH (hb : HeapBook) : Option ℚ :=
  hb.bids.head?.map fun r => (hb.store r).price_cperkwh

/-! ### Invariants and operation sequences -/

/-- An offer that the band branch accepts: it crosses the quote and lies
within the relative band of the quote price. -/
def bandOK (qPrice band : ℚ) (side : Side) (o : Order) : Prop :=
  crossesQuote side qPrice o.price_cperkwh ∧ |o.price_cperkwh - qPrice| / qPrice ≤ band

instance (qP b : ℚ) (s : Side) (o : Order) : Decidable (bandOK qP b s o) :=
  inferInstanceAs
    (Decidable (crossesQuote s qP o.price_cperkwh ∧ |o.price_cperkwh - qP| / qP ≤ b))

/-- Forget an order's quantity (identifies lists that differ only in
quantities, which is how matching edits the resting book). -/
def stripQty (o : Order) : Order := { o with qty_kwh := 0 }

/-- The state invariant of the live order book: bids sorted by descending
price, asks by ascending price, resting quantities positive, and no resting
bid priced at or above any resting ask. -/
def InvBook (ob : OrderBook) : Prop :=
  ob.bids.Pairwise (fun x y => y.price_cperkwh ≤ x.price_cperkwh) ∧
  ob.asks.Pairwise (fun x y => x.price_cperkwh ≤ y.price_cperkwh) ∧
  (∀ o ∈ ob.bids, 0 < o.qty_kwh) ∧
  (∀ o ∈ ob.asks, 0 < o.qty_kwh) ∧
  (∀ b ∈ ob.bids, ∀ a ∈ ob.asks, b.price_cperkwh < a.price_cperkwh)

/-- One public operation on the shared book: the `OrderBook` calls plus a
call-auction clearing step with the interval's fresh postings and its
(optional) feeder energy cap. -/
inductive BookOp
  | submitOp (agent : String) (side : Side) (price qty : ℚ)
  | cancelOp (oid : ℕ)
  | modifyOp (oid : ℕ) (newQty : Option ℚ) (newPrice : Option ℚ)
  | callClearOp (newBids newAsks : List Order) (cap : Option ℚ)

/-- Apply one operation to the book (a raise inside an operation leaves the
state the source had mutated up to that point). -/
def applyOp (ob : OrderBook) : BookOp → OrderBook
  | .submitOp a s p q => (submitSt ob a s p q).1
  | .cancelOp oid => (cancelSt ob oid).1
  | .modifyOp oid nq np => (modifySt ob oid nq np).1
  | .callClearOp nb na cap => (stepCall ob nb na cap).1

/-- Apply a sequence of operations. -/
def applyOps (ob : OrderBook) (ops : List BookOp) : OrderBook := ops.foldl applyOp ob

/-- The postings fed to a clearing step have positive quantity (as
`clearing.step_interval_call` guarantees via its `make_quote` fallback) and
its feeder energy cap, when one is given, is positive. -/
def OpPosQty : BookOp → Prop
  | .callClearOp nb na cap =>
      (∀ o ∈ nb ++ na, 0 < o.qty_kwh) ∧ ∀ cv, cap = some cv → 0 < cv
  | _ => True

/-- The side of the book an incoming order matches against. -/
def oppSide (ob : OrderBook) : Side → List Order
  | .buy => ob.asks
  | .sell => ob.bids

/-- Price-time priority among makers for a given taker side: strictly better
price first (lower for a buy taker, higher for a sell taker), FIFO by
`arrival_seq` within an equal price. -/
def makerPriority (side : Side) (x y : Order) : Prop :=
  (match side with
   | .buy => x.price_cperkwh < y.price_cperkwh
   | .sell => y.price_cperkwh < x.price_cperkwh) ∨
  (x.price_cperkwh = y.price_cperkwh ∧ x.arrival_seq < y.arrival_seq)

/-! ### Concrete instances used by witnesses and counterexamples -/

/-- A book holding one resting ask at 15 (already tick-quantized). -/
def obC1 : OrderBook :=
  { tick_cents := 1/10, bids := [], asks := [⟨1, 15, 1, .sell, "s1", 1⟩],
    id_counter := 1, arrival_counter := 1, trades_log := [] }

/-- One resting ask then a non-crossing bid: a two-operation history. -/
def opsW : List BookOp :=
  [.submitOp "s1" .sell 15 1, .submitOp "b1" .buy 10 1]

/-- A book holding two resting asks at the same price 15, FIFO order
`s1` before `s2`. -/
def obC2 : OrderBook :=
  { tick_cents := 1/10, bids := [],
    asks := [⟨1, 15, 1/2, .sell, "s1", 1⟩, ⟨2, 15, 1/2, .sell, "s2", 2⟩],
    id_counter := 2, arrival_counter := 2, trades_log := [] }

/-- A one-bid store-based book: reference `0` holds a bid at price 10. -/
def hb0 : HeapBook :=
  { store := fun _ =>
      { order_id := 7, price_cperkwh := 10, qty_kwh := 1, side := .buy,
        agent_id := "b1", arrival_seq := 1 }
    bids := [0]
    asks := [] }

/-- A fixed global `random` stream (draws 0, then 1/4 forever). -/
def gStream : GRng := ⟨fun n => if n = 0 then 0 else 1/4, 0⟩

/-- A ZI agent as `run.py` constructs it. -/
def ziAgent : ZIConstrained := ⟨"zi_0", none⟩

/-- The book left by one call-auction clearing step on an empty book with
one crossed bid/ask pair under a feeder energy cap of 0 kWh
(`feeder_limit_kw = 0.0`, so `cap_kwh = 0.0 * step_min/60 = 0`): the cap
break fires before any trade is constructed, so the step completes normally
and rests both crossed orders. -/
def cappedClearBook : OrderBook :=
  (stepCall emptyBook [⟨0, 20, 1, .buy, "b", 1⟩] [⟨0, 10, 1, .sell, "s", 2⟩]
    (some 0)).1

/-! ## Theorems -/

/-! ### Satisficer band mode -/

lemma bandScan_qPrice_zero (band qQty : ℚ) (side : Side) :
    ∀ (l : List Order) (seen : ℕ),
      bandScan band 0 qQty side seen l = .post (seen + l.length) := by
  intro l
  induction l with
  | nil => intro seen; simp [bandScan]
  | cons o tl ih =>
    intro seen
    simp only [bandScan, if_pos rfl, ih, List.length_cons]
    have h : seen + 1 + tl.length = seen + (tl.length + 1) := by omega
    rw [h]
    simp

/-- C10: in band mode, a quote price of exactly 0 short-circuits every
iteration before the relative-band division: the scan counts every offer and
the decision is always `post` over the full depth, never `accept`. -/
theorem band_zero_price_never_accepts (tauPercent qQty : ℚ) (side : Side)
    (opp : List Order) :
    satisficerBand tauPercent 0 qQty side opp = .post opp.length := by
  simpa using bandScan_qPrice_zero (tauPercent / 100) qQty side opp 0

lemma bandScan_all_miss (band qP qQ : ℚ) (side : Side) (hq : qP ≠ 0) :
    ∀ (l : List Order) (seen : ℕ), (∀ o ∈ l, ¬ bandOK qP band side o) →
      bandScan band qP qQ side seen l = .post (seen + l.length) := by
  intro l
  induction l with
  | nil => intro seen _; simp [bandScan]
  | cons o tl ih =>
    intro seen h
    have ho : ¬ bandOK qP band side o := h o (List.mem_cons_self o tl)
    simp only [bandScan, if_neg hq]
    rw [if_neg (show ¬ (crossesQuote side qP o.price_cperkwh ∧
      |o.price_cperkwh - qP| / qP ≤ band) from ho)]
    rw [ih (seen + 1) (fun x hx => h x (List.mem_cons_of_mem o hx))]
    simp only [List.length_cons]
    have h2 : seen + 1 + tl.length = seen + (tl.length + 1) := by omega
    rw [h2]

lemma bandScan_first_hit (band qP qQ : ℚ) (side : Side) (hq : qP ≠ 0) :
    ∀ (pre : List Order) (o : Order) (rest : List Order) (seen : ℕ),
      (∀ x ∈ pre, ¬ bandOK qP band side x) → bandOK qP band side o →
      bandScan band qP qQ side seen (pre ++ o :: rest) =
        .accept o.order_id (min qQ o.qty_kwh) (seen + pre.length + 1)
          o.price_cperkwh side := by
  intro pre
  induction pre with
  | nil =>
    intro o rest seen _ ho
    simp only [List.nil_append, bandScan, if_neg hq]
    rw [if_pos (by exact_mod_cast ho)]
    simp
  | cons x tl ih =>
    intro o rest seen h ho
    have hx : ¬ bandOK qP band side x := h x (List.mem_cons_self x tl)
    rw [List.cons_append]
    simp only [bandScan, if_neg hq]
    rw [if_neg (by exact_mod_cast hx)]
    rw [ih o rest (seen + 1) (fun y hy => h y (List.mem_cons_of_mem x hy)) ho]
    simp only [List.length_cons]
    have h2 : seen + 1 + tl.length + 1 = seen + (tl.length + 1) + 1 := by omega
    rw [h2]

/-- C8: in band mode with a nonzero quote price, `decide` accepts the first
offer (in the snapshot's book order) that crosses the quote and lies within
`tau_percent` of it, reporting `offers_seen` as that offer's 1-based scan
position and quantity `min(q_qty, offer qty)`; if no offer qualifies it
posts with `offers_seen` equal to the full scanned depth. -/
theorem band_accepts_first_in_band (tauPercent qP qQ : ℚ) (side : Side)
    (hq : qP ≠ 0) :
    (∀ opp : List Order, (∀ o ∈ opp, ¬ bandOK qP (tauPercent / 100) side o) →
      satisficerBand tauPercent qP qQ side opp = .post opp.length) ∧
    (∀ (pre : List Order) (o : Order) (rest : List Order),
      (∀ x ∈ pre, ¬ bandOK qP (tauPercent / 100) side x) →
      bandOK qP (tauPercent / 100) side o →
      satisficerBand tauPercent qP qQ side (pre ++ o :: rest) =
        .accept o.order_id (min qQ o.qty_kwh) (pre.length + 1)
          o.price_cperkwh side) := by
  constructor
  · intro opp h
    simpa using bandScan_all_miss (tauPercent / 100) qP qQ side hq opp 0 h
  · intro pre o rest hpre ho
    simpa using bandScan_first_hit (tauPercent / 100) qP qQ side hq pre o rest 0 hpre ho

/-- Witness for C8 at the spec's scenario: quote price 20, `tau = 5%`, asks
scanned in the order `[22.0, 19.5]` — the 22.0 ask is skipped (it does not
cross), the 19.5 ask is accepted with `offers_seen = 2`. -/
theorem band_accepts_first_in_band_witness :
    (20 : ℚ) ≠ 0 ∧
    satisficerBand 5 20 1 .buy
        [⟨1, 22, 1, .sell, "s1", 1⟩, ⟨2, 39/2, 1, .sell, "s2", 2⟩] =
      .accept 2 1 2 (39/2) .buy := by
  refine ⟨by norm_num, ?_⟩
  have h := (band_accepts_first_in_band 5 20 1 .buy (by norm_num)).2
    [⟨1, 22, 1, .sell, "s1", 1⟩] ⟨2, 39/2, 1, .sell, "s2", 2⟩ []
    (by
      intro x hx
      rw [List.mem_singleton] at hx
      subst hx
      norm_num [bandOK, crossesQuote])
    (by
      refine ⟨Or.inl ⟨rfl, by norm_num⟩, ?_⟩
      rw [show |((39:ℚ)/2 - 20)| = 1/2 by rw [abs_of_nonpos] <;> norm_num]
      norm_num)
  simpa using h

/-! ### ZIConstrained and the global random stream -/

/-- Counterexample for C9: two identically constructed `ZIConstrained`
agents (here literally the same construction `ziAgent`) in the same run draw
from the shared module-level generator, so the second agent's quote differs
from the first's even though both received the same inputs: agent decisions
are not reproducible from per-agent state alone. -/
theorem zi_same_agent_different_quotes :
    (ziMakeQuote ziAgent gStream).1 ≠
      (ziMakeQuote ziAgent (ziMakeQuote ziAgent gStream).2).1 := by
  norm_num [ziMakeQuote, pyUniform, pyChoice2, draw, gStream, pyRound1, pyRound]

/-- Amended C9: `ZIConstrained.make_quote` uses no per-agent randomness at
all — it reads neither `agent_id` nor `seed`, drawing only from the
process-global `random` stream (whose consumption by other agents shifts
every later draw, as the counterexample shows). -/
theorem zi_quote_ignores_agent_identity :
    ∀ (a1 a2 : ZIConstrained) (g : GRng), ziMakeQuote a1 g = ziMakeQuote a2 g :=
  fun _ _ _ => rfl

/-! ### Snapshot aliasing -/

/-- Counterexample for C7: `snapshot()` copies only the list containers, so
writing a field of an order reached through the snapshot changes the book:
after setting the snapshotted bid's price to 99, `best_bid()` changes. -/
theorem snapshot_field_mutation_changes_book :
    0 ∈ (snapshotRefs hb0).1 ∧
      bestBidH (setOrderPrice hb0 0 99) ≠ bestBidH hb0 := by
  refine ⟨by simp [snapshotRefs, hb0], ?_⟩
  norm_num [bestBidH, setOrderPrice, hb0]

/-- Amended C7: the lists returned by `snapshot()` are fresh containers, but
their elements alias the book's own `Order` records: assigning a price
through the first snapshotted bid reference makes `best_bid()` report
exactly the assigned price. -/
theorem snapshot_field_mutation_propagates (hb : HeapBook) (r : ℕ)
    (rest : List ℕ) (p : ℚ) (h : (snapshotRefs hb).1 = r :: rest) :
    bestBidH (setOrderPrice hb r p) = some p := by
  simp only [snapshotRefs] at h
  simp [bestBidH, setOrderPrice, h]

/-- Witness for the amended C7 statement at the concrete one-bid book. -/
theorem snapshot_field_mutation_propagates_witness :
    (snapshotRefs hb0).1 = 0 :: [] ∧
      bestBidH (setOrderPrice hb0 0 99) = some 99 :=
  ⟨rfl, snapshot_field_mutation_propagates hb0 0 [] 99 rfl⟩

/-! ### The missing quote-price fields of `Trade` -/

/-- C4 (bug evidence): a resting ask at 15 and a crossing buy at 17 produce
one `Trade`, and `compute_quote_welfare` on it raises `AttributeError`
because the `Trade` dataclass carries no `bid_price_cperkwh` /
`ask_price_cperkwh` fields — contrary to its own docstring, to
`clearing._batch_match`'s constructor call and to `test_metrics.py`. -/
theorem trade_record_lacks_quote_prices :
    (submitSt (submitSt emptyBook "s1" .sell 15 1).1 "b1" .buy 17 1).2 =
      .ok (2, [⟨15, 1, "b1", "s1", 1, 2⟩]) ∧
    computeQuoteWelfare [⟨15, 1, "b1", "s1", 1, 2⟩] =
      .error "AttributeError: Trade object has no attribute bid_price_cperkwh" := by
  constructor
  · norm_num [submitSt, normalizePrice, pyRound3, pyRound, matchBuy, matchSell,
      insertSortedAsc, insertSortedDesc, emptyBook]
  · rfl

/-- C5 (bug evidence): on the order set of `test_planner_bound_ge_realized`
the planner bound evaluates to `(1/2, 3/5)`, the live book produces two
trades, and `compute_quote_welfare` on those trades raises instead of
returning a number — the claimed inequality `bound ≥ welfare` can never be
evaluated on `OrderBook` trades. -/
theorem planner_bound_vs_live_welfare_crash :
    plannerBound [⟨1, 16, 3/5, .buy, "b1", 0⟩]
        [⟨2, 15, 1/2, .sell, "s1", 0⟩, ⟨3, 16, 1/2, .sell, "s2", 0⟩] none =
      (1/2, 3/5) ∧
    (submitSt (submitSt (submitSt emptyBook "s1" .sell 15 (1/2)).1
        "s2" .sell 16 (1/2)).1 "b1" .buy 16 (3/5)).2 =
      .ok (3, [⟨15, 1/2, "b1", "s1", 1, 3⟩, ⟨16, 1/10, "b1", "s2", 2, 3⟩]) ∧
    computeQuoteWelfare
        [⟨15, 1/2, "b1", "s1", 1, 3⟩, ⟨16, 1/10, "b1", "s2", 2, 3⟩] =
      .error "AttributeError: Trade object has no attribute bid_price_cperkwh" := by
  refine ⟨?_, ?_, rfl⟩
  · norm_num [plannerBound, plannerLoop, pBidRel, pAskRel,
      List.insertionSort, List.orderedInsert]
  · norm_num [submitSt, normalizePrice, pyRound3, pyRound, matchBuy, matchSell,
      insertSortedAsc, insertSortedDesc, emptyBook]

/-! ### Submit validation (C6) -/

/-- C6: `submit` raises exactly when the quantity is non-positive or the
price negative, and in that case the book is unchanged — both checks run
before any mutation. -/
theorem submit_rejects_iff_invalid (ob : OrderBook) (agent : String)
    (side : Side) (price qty : ℚ) :
    ((∃ e, (submitSt ob agent side price qty).2 = .error e) ↔
      (qty ≤ 0 ∨ price < 0)) ∧
    ((qty ≤ 0 ∨ price < 0) → (submitSt ob agent side price qty).1 = ob) := by
  unfold submitSt normalizePrice
  by_cases hq : qty ≤ 0
  · simp [hq]
  · simp only [if_neg hq]
    by_cases hp : price < 0
    · simp [hp]
    · simp only [if_neg hp]
      cases side <;> simp [hq, hp]

/-- Witness for C6 at a concrete invalid submission. -/
theorem submit_rejects_iff_invalid_witness :
    ((-1 : ℚ) ≤ 0 ∨ (5 : ℚ) < 0) ∧
    (∃ e, (submitSt emptyBook "a1" .buy 5 (-1)).2 = .error e) ∧
    (submitSt emptyBook "a1" .buy 5 (-1)).1 = emptyBook := by
  have h := submit_rejects_iff_invalid emptyBook "a1" .buy 5 (-1)
  exact ⟨Or.inl (by norm_num), h.1.mpr (Or.inl (by norm_num)),
    h.2 (Or.inl (by norm_num))⟩

/-! ### No-cross invariant (C3) -/

/-- Counterexample for C3: one `step_interval_call` clearing with feeder
capacity 0 kW (energy cap 0 kWh) on a crossed bid/ask pair hits the
`remaining <= 0` break before any `Trade` is constructed, so the step
completes without raising (result `.ok []`) and rests both orders:
`best_bid() = 20 > 10 = best_ask()` — a crossed book. -/
theorem feeder_capped_clear_rests_crossed :
    (stepCall emptyBook [⟨0, 20, 1, .buy, "b", 1⟩] [⟨0, 10, 1, .sell, "s", 2⟩]
        (some 0)).2 = .ok [] ∧
    bestBid cappedClearBook = some 20 ∧ bestAsk cappedClearBook = some 10 ∧
      ¬ ((20 : ℚ) < 10) := by
  refine ⟨?_, ?_, ?_, by norm_num⟩ <;>
    norm_num [cappedClearBook, stepCall, batchMatch, batchLoop, sortBids,
      sortAsks, List.insertionSort, List.orderedInsert, bidRel, askRel,
      bestBid, bestAsk, emptyBook, List.filter]

/-! ### Structural lemmas about the continuous matching loop -/

lemma matchBuy_maker_mem (ag : String) (i : ℕ) (p : ℚ) :
    ∀ (asks : List Order) (qty : ℚ),
      ∀ t ∈ (matchBuy ag i p qty asks).1, ∃ m ∈ asks,
        t.maker_order_id = m.order_id ∧ t.price_cperkwh = m.price_cperkwh := by
  intro asks
  induction asks with
  | nil => intro qty t ht; simp [matchBuy] at ht
  | cons maker rest ih =>
    intro qty t ht
    by_cases h1 : 0 < qty ∧ maker.price_cperkwh ≤ p
    · by_cases h2 : maker.qty_kwh - min qty maker.qty_kwh ≤ 0
      · simp only [matchBuy, if_pos h1, if_pos h2, List.mem_cons] at ht
        rcases ht with h | h
        · exact ⟨maker, List.mem_cons_self _ _, by simp [h]⟩
        · obtain ⟨m, hm, hprop⟩ := ih (qty - min qty maker.qty_kwh) t h
          exact ⟨m, List.mem_cons_of_mem _ hm, hprop⟩
      · simp only [matchBuy, if_pos h1, if_neg h2, List.mem_singleton] at ht
        exact ⟨maker, List.mem_cons_self _ _, by simp [ht]⟩
    · simp [matchBuy, if_neg h1] at ht

lemma matchSell_maker_mem (ag : String) (i : ℕ) (p : ℚ) :
    ∀ (bids : List Order) (qty : ℚ),
      ∀ t ∈ (matchSell ag i p qty bids).1, ∃ m ∈ bids,
        t.maker_order_id = m.order_id ∧ t.price_cperkwh = m.price_cperkwh := by
  intro bids
  induction bids with
  | nil => intro qty t ht; simp [matchSell] at ht
  | cons maker rest ih =>
    intro qty t ht
    by_cases h1 : 0 < qty ∧ p ≤ maker.price_cperkwh
    · by_cases h2 : maker.qty_kwh - min qty maker.qty_kwh ≤ 0
      · simp only [matchSell, if_pos h1, if_pos h2, List.mem_cons] at ht
        rcases ht with h | h
        · exact ⟨maker, List.mem_cons_self _ _, by simp [h]⟩
        · obtain ⟨m, hm, hprop⟩ := ih (qty - min qty maker.qty_kwh) t h
          exact ⟨m, List.mem_cons_of_mem _ hm, hprop⟩
      · simp only [matchSell, if_pos h1, if_neg h2, List.mem_singleton] at ht
        exact ⟨maker, List.mem_cons_self _ _, by simp [ht]⟩
    · simp [matchSell, if_neg h1] at ht

lemma matchBuy_trades_prefix (ag : String) (i : ℕ) (p : ℚ) :
    ∀ (asks : List Order) (qty : ℚ),
      (matchBuy ag i p qty asks).1.map (·.maker_order_id) =
        (asks.take (matchBuy ag i p qty asks).1.length).map (·.order_id) ∧
      (matchBuy ag i p qty asks).1.map (·.price_cperkwh) =
        (asks.take (matchBuy ag i p qty asks).1.length).map (·.price_cperkwh) := by
  intro asks
  induction asks with
  | nil => intro qty; simp [matchBuy]
  | cons maker rest ih =>
    intro qty
    by_cases h1 : 0 < qty ∧ maker.price_cperkwh ≤ p
    · by_cases h2 : maker.qty_kwh - min qty maker.qty_kwh ≤ 0
      · obtain ⟨ihid, ihpr⟩ := ih (qty - min qty maker.qty_kwh)
        simp only [matchBuy, if_pos h1, if_pos h2, List.map_cons, List.length_cons,
          List.take_succ_cons]
        exact ⟨by rw [ihid], by rw [ihpr]⟩
      · simp only [matchBuy, if_pos h1, if_neg h2]
        simp
    · simp only [matchBuy, if_neg h1]
      simp

lemma matchSell_trades_prefix (ag : String) (i : ℕ) (p : ℚ) :
    ∀ (bids : List Order) (qty : ℚ),
      (matchSell ag i p qty bids).1.map (·.maker_order_id) =
        (bids.take (matchSell ag i p qty bids).1.length).map (·.order_id) ∧
      (matchSell ag i p qty bids).1.map (·.price_cperkwh) =
        (bids.take (matchSell ag i p qty bids).1.length).map (·.price_cperkwh) := by
  intro bids
  induction bids with
  | nil => intro qty; simp [matchSell]
  | cons maker rest ih =>
    intro qty
    by_cases h1 : 0 < qty ∧ p ≤ maker.price_cperkwh
    · by_cases h2 : maker.qty_kwh - min qty maker.qty_kwh ≤ 0
      · obtain ⟨ihid, ihpr⟩ := ih (qty - min qty maker.qty_kwh)
        simp only [matchSell, if_pos h1, if_pos h2, List.map_cons, List.length_cons,
          List.take_succ_cons]
        exact ⟨by rw [ihid], by rw [ihpr]⟩
      · simp only [matchSell, if_pos h1, if_neg h2]
        simp
    · simp only [matchSell, if_neg h1]
      simp

lemma matchBuy_exit (ag : String) (i : ℕ) (p : ℚ) :
    ∀ (asks : List Order) (qty : ℚ) (hd : Order) (tl : List Order),
      0 < (matchBuy ag i p qty asks).2.1 →
      (matchBuy ag i p qty asks).2.2 = hd :: tl → p < hd.price_cperkwh := by
  intro asks
  induction asks with
  | nil => intro qty hd tl _ he; simp [matchBuy] at he
  | cons maker rest ih =>
    intro qty hd tl hpos he
    by_cases h1 : 0 < qty ∧ maker.price_cperkwh ≤ p
    · by_cases h2 : maker.qty_kwh - min qty maker.qty_kwh ≤ 0
      · simp only [matchBuy, if_pos h1, if_pos h2] at hpos he
        exact ih (qty - min qty maker.qty_kwh) hd tl hpos he
      · exfalso
        simp only [matchBuy, if_pos h1, if_neg h2] at hpos
        rcases le_total qty maker.qty_kwh with hle | hle
        · rw [min_eq_left hle] at hpos; linarith
        · exact h2 (by rw [min_eq_right hle]; linarith)
    · simp only [matchBuy, if_neg h1] at hpos he
      rcases List.cons.injEq .. ▸ he with ⟨rfl, rfl⟩
      push_neg at h1
      exact h1 hpos


lemma matchSell_exit (ag : String) (i : ℕ) (p : ℚ) :
    ∀ (bids : List Order) (qty : ℚ) (hd : Order) (tl : List Order),
      0 < (matchSell ag i p qty bids).2.1 →
      (matchSell ag i p qty bids).2.2 = hd :: tl → hd.price_cperkwh < p := by
  intro bids
  induction bids with
  | nil => intro qty hd tl _ he; simp [matchSell] at he
  | cons maker rest ih =>
    intro qty hd tl hpos he
    by_cases h1 : 0 < qty ∧ p ≤ maker.price_cperkwh
    · by_cases h2 : maker.qty_kwh - min qty maker.qty_kwh ≤ 0
      · simp only [matchSell, if_pos h1, if_pos h2] at hpos he
        exact ih (qty - min qty maker.qty_kwh) hd tl hpos he
      · exfalso
        simp only [matchSell, if_pos h1, if_neg h2] at hpos
        rcases le_total qty maker.qty_kwh with hle | hle
        · rw [min_eq_left hle] at hpos; linarith
        · exact h2 (by rw [min_eq_right hle]; linarith)
    · simp only [matchSell, if_neg h1] at hpos he
      rcases List.cons.injEq .. ▸ he with ⟨rfl, rfl⟩
      push_neg at h1
      exact h1 hpos

lemma matchBuy_residual_strip (ag : String) (i : ℕ) (p : ℚ) :
    ∀ (asks : List Order) (qty : ℚ), ∃ k,
      ((matchBuy ag i p qty asks).2.2).map stripQty = (asks.drop k).map stripQty := by
  intro asks
  induction asks with
  | nil => intro qty; exact ⟨0, by simp [matchBuy]⟩
  | cons maker rest ih =>
    intro qty
    by_cases h1 : 0 < qty ∧ maker.price_cperkwh ≤ p
    · by_cases h2 : maker.qty_kwh - min qty maker.qty_kwh ≤ 0
      · obtain ⟨k, hk⟩ := ih (qty - min qty maker.qty_kwh)
        refine ⟨k + 1, ?_⟩
        simp only [matchBuy, if_pos h1, if_pos h2, List.drop_succ_cons]
        exact hk
      · refine ⟨0, ?_⟩
        simp only [matchBuy, if_pos h1, if_neg h2, List.drop_zero, List.map_cons]
        simp [stripQty]
    · refine ⟨0, ?_⟩
      simp only [matchBuy, if_neg h1]
      simp

lemma matchSell_residual_strip (ag : String) (i : ℕ) (p : ℚ) :
    ∀ (bids : List Order) (qty : ℚ), ∃ k,
      ((matchSell ag i p qty bids).2.2).map stripQty = (bids.drop k).map stripQty := by
  intro bids
  induction bids with
  | nil => intro qty; exact ⟨0, by simp [matchSell]⟩
  | cons maker rest ih =>
    intro qty
    by_cases h1 : 0 < qty ∧ p ≤ maker.price_cperkwh
    · by_cases h2 : maker.qty_kwh - min qty maker.qty_kwh ≤ 0
      · obtain ⟨k, hk⟩ := ih (qty - min qty maker.qty_kwh)
        refine ⟨k + 1, ?_⟩
        simp only [matchSell, if_pos h1, if_pos h2, List.drop_succ_cons]
        exact hk
      · refine ⟨0, ?_⟩
        simp only [matchSell, if_pos h1, if_neg h2, List.drop_zero, List.map_cons]
        simp [stripQty]
    · refine ⟨0, ?_⟩
      simp only [matchSell, if_neg h1]
      simp

lemma matchBuy_residual_pos (ag : String) (i : ℕ) (p : ℚ) :
    ∀ (asks : List Order) (qty : ℚ), (∀ o ∈ asks, 0 < o.qty_kwh) →
      ∀ o ∈ (matchBuy ag i p qty asks).2.2, 0 < o.qty_kwh := by
  intro asks
  induction asks with
  | nil => intro qty _ o ho; simp [matchBuy] at ho
  | cons maker rest ih =>
    intro qty hall o ho
    by_cases h1 : 0 < qty ∧ maker.price_cperkwh ≤ p
    · by_cases h2 : maker.qty_kwh - min qty maker.qty_kwh ≤ 0
      · simp only [matchBuy, if_pos h1, if_pos h2] at ho
        exact ih (qty - min qty maker.qty_kwh)
          (fun x hx => hall x (List.mem_cons_of_mem _ hx)) o ho
      · simp only [matchBuy, if_pos h1, if_neg h2, List.mem_cons] at ho
        rcases ho with h | h
        · rw [h]; push_neg at h2; exact h2
        · exact hall o (List.mem_cons_of_mem _ h)
    · simp only [matchBuy, if_neg h1] at ho
      exact hall o ho

lemma matchSell_residual_pos (ag : String) (i : ℕ) (p : ℚ) :
    ∀ (bids : List Order) (qty : ℚ), (∀ o ∈ bids, 0 < o.qty_kwh) →
      ∀ o ∈ (matchSell ag i p qty bids).2.2, 0 < o.qty_kwh := by
  intro bids
  induction bids with
  | nil => intro qty _ o ho; simp [matchSell] at ho
  | cons maker rest ih =>
    intro qty hall o ho
    by_cases h1 : 0 < qty ∧ p ≤ maker.price_cperkwh
    · by_cases h2 : maker.qty_kwh - min qty maker.qty_kwh ≤ 0
      · simp only [matchSell, if_pos h1, if_pos h2] at ho
        exact ih (qty - min qty maker.qty_kwh)
          (fun x hx => hall x (List.mem_cons_of_mem _ hx)) o ho
      · simp only [matchSell, if_pos h1, if_neg h2, List.mem_cons] at ho
        rcases ho with h | h
        · rw [h]; push_neg at h2; exact h2
        · exact hall o (List.mem_cons_of_mem _ h)
    · simp only [matchSell, if_neg h1] at ho
      exact hall o ho

lemma pairwise_price_of_strip_eq {l l' : List Order} {R : ℚ → ℚ → Prop}
    (h : l.map stripQty = l'.map stripQty)
    (hp : l'.Pairwise fun x y => R x.price_cperkwh y.price_cperkwh) :
    l.Pairwise fun x y => R x.price_cperkwh y.price_cperkwh := by
  have h1 : (l'.map stripQty).Pairwise
      (fun x y => R x.price_cperkwh y.price_cperkwh) := by
    rw [List.pairwise_map]
    exact hp
  rw [← h, List.pairwise_map] at h1
  exact h1

lemma mem_price_of_strip_drop {l asks : List Order} {k : ℕ}
    (h : l.map stripQty = (asks.drop k).map stripQty) :
    ∀ y ∈ l, ∃ a ∈ asks, y.price_cperkwh = a.price_cperkwh := by
  intro y hy
  have hmem : stripQty y ∈ (asks.drop k).map stripQty := by
    rw [← h]
    exact List.mem_map_of_mem _ hy
  obtain ⟨a, ha, he⟩ := List.mem_map.mp hmem
  refine ⟨a, List.mem_of_mem_drop ha, ?_⟩
  exact (congrArg Order.price_cperkwh he).symm

lemma mem_insertSortedDesc {x o : Order} :
    ∀ l : List Order, x ∈ insertSortedDesc o l ↔ x = o ∨ x ∈ l := by
  intro l
  induction l with
  | nil => simp [insertSortedDesc]
  | cons b rest ih =>
    by_cases hc : o.price_cperkwh < b.price_cperkwh ∨
        (b.price_cperkwh = o.price_cperkwh ∧ b.arrival_seq < o.arrival_seq)
    · simp only [insertSortedDesc, if_pos hc, List.mem_cons, ih]
      tauto
    · simp only [insertSortedDesc, if_neg hc, List.mem_cons]

lemma mem_insertSortedAsc {x o : Order} :
    ∀ l : List Order, x ∈ insertSortedAsc o l ↔ x = o ∨ x ∈ l := by
  intro l
  induction l with
  | nil => simp [insertSortedAsc]
  | cons b rest ih =>
    by_cases hc : b.price_cperkwh < o.price_cperkwh ∨
        (b.price_cperkwh = o.price_cperkwh ∧ b.arrival_seq < o.arrival_seq)
    · simp only [insertSortedAsc, if_pos hc, List.mem_cons, ih]
      tauto
    · simp only [insertSortedAsc, if_neg hc, List.mem_cons]

lemma pairwise_insertSortedDesc {o : Order} :
    ∀ {l : List Order},
      l.Pairwise (fun a b => b.price_cperkwh ≤ a.price_cperkwh) →
      (insertSortedDesc o l).Pairwise
        (fun a b => b.price_cperkwh ≤ a.price_cperkwh) := by
  intro l
  induction l with
  | nil => intro _; simp [insertSortedDesc]
  | cons b rest ih =>
    intro hp
    obtain ⟨hb, hr⟩ := List.pairwise_cons.mp hp
    by_cases hc : o.price_cperkwh < b.price_cperkwh ∨
        (b.price_cperkwh = o.price_cperkwh ∧ b.arrival_seq < o.arrival_seq)
    · simp only [insertSortedDesc, if_pos hc, List.pairwise_cons]
      refine ⟨?_, ih hr⟩
      intro y hy
      rcases (mem_insertSortedDesc rest).mp hy with rfl | hmem
      · rcases hc with h | ⟨h, -⟩
        · exact le_of_lt h
        · exact le_of_eq h.symm
      · exact hb y hmem
    · simp only [insertSortedDesc, if_neg hc, List.pairwise_cons]
      push_neg at hc
      refine ⟨?_, hb, hr⟩
      intro y hy
      rcases List.mem_cons.mp hy with rfl | hmem
      · exact hc.1
      · exact le_trans (hb y hmem) hc.1

lemma pairwise_insertSortedAsc {o : Order} :
    ∀ {l : List Order},
      l.Pairwise (fun a b => a.price_cperkwh ≤ b.price_cperkwh) →
      (insertSortedAsc o l).Pairwise
        (fun a b => a.price_cperkwh ≤ b.price_cperkwh) := by
  intro l
  induction l with
  | nil => intro _; simp [insertSortedAsc]
  | cons b rest ih =>
    intro hp
    obtain ⟨hb, hr⟩ := List.pairwise_cons.mp hp
    by_cases hc : b.price_cperkwh < o.price_cperkwh ∨
        (b.price_cperkwh = o.price_cperkwh ∧ b.arrival_seq < o.arrival_seq)
    · simp only [insertSortedAsc, if_pos hc, List.pairwise_cons]
      refine ⟨?_, ih hr⟩
      intro y hy
      rcases (mem_insertSortedAsc rest).mp hy with rfl | hmem
      · rcases hc with h | ⟨h, -⟩
        · exact le_of_lt h
        · exact le_of_eq h
      · exact hb y hmem
    · simp only [insertSortedAsc, if_neg hc, List.pairwise_cons]
      push_neg at hc
      refine ⟨?_, hb, hr⟩
      intro y hy
      rcases List.mem_cons.mp hy with rfl | hmem
      · exact hc.1
      · exact le_trans hc.1 (hb y hmem)

/-! ### C1: maker-price rule -/

/-- C1: every trade returned by `submit` carries the price of the resting
maker order it matched (identified by `maker_order_id` in the pre-call book),
and — when the resting book holds tick-quantized prices, as `submit` alone
produces — that price is tick-quantized; the taker's own price never sets
the trade price except by coinciding with the maker's. -/
theorem trade_price_is_maker_price (ob : OrderBook) (agent : String)
    (side : Side) (price qty : ℚ) (ob2 : OrderBook) (oid : ℕ) (ts : List Trade)
    (hquant : ∀ o ∈ ob.bids ++ ob.asks, IsQuantized ob.tick_cents o.price_cperkwh)
    (hsub : submitSt ob agent side price qty = (ob2, .ok (oid, ts))) :
    ∀ t ∈ ts, ∃ m ∈ oppSide ob side,
      t.maker_order_id = m.order_id ∧ t.price_cperkwh = m.price_cperkwh ∧
      IsQuantized ob.tick_cents t.price_cperkwh := by
  by_cases hq : qty ≤ 0
  · simp [submitSt, hq] at hsub
  · by_cases hp : price < 0
    · simp [submitSt, normalizePrice, hq, hp] at hsub
    · cases side with
      | buy =>
        simp only [submitSt, normalizePrice, if_neg hq, if_neg hp] at hsub
        injection hsub with h1 h2
        injection h2 with h3
        injection h3 with h4 h5
        intro t ht
        rw [← h5] at ht
        obtain ⟨m, hm, hid, hpr⟩ := matchBuy_maker_mem agent _ _ ob.asks qty t ht
        refine ⟨m, hm, hid, hpr, ?_⟩
        rw [hpr]
        exact hquant m (List.mem_append_right _ hm)
      | sell =>
        simp only [submitSt, normalizePrice, if_neg hq, if_neg hp] at hsub
        injection hsub with h1 h2
        injection h2 with h3
        injection h3 with h4 h5
        intro t ht
        rw [← h5] at ht
        obtain ⟨m, hm, hid, hpr⟩ := matchSell_maker_mem agent _ _ ob.bids qty t ht
        refine ⟨m, hm, hid, hpr, ?_⟩
        rw [hpr]
        exact hquant m (List.mem_append_left _ hm)

/-- Witness for C1: a resting quantized ask at 15 and a crossing buy at 17
trade exactly at the maker's price 15. -/
theorem trade_price_is_maker_price_witness :
    (∀ o ∈ obC1.bids ++ obC1.asks, IsQuantized obC1.tick_cents o.price_cperkwh) ∧
    (∀ t ∈ [(⟨15, 1, "b1", "s1", 1, 2⟩ : Trade)], ∃ m ∈ oppSide obC1 .buy,
      t.maker_order_id = m.order_id ∧ t.price_cperkwh = m.price_cperkwh ∧
      IsQuantized obC1.tick_cents t.price_cperkwh) := by
  have hquant : ∀ o ∈ obC1.bids ++ obC1.asks,
      IsQuantized obC1.tick_cents o.price_cperkwh := by
    intro o ho
    simp [obC1] at ho
    rw [ho]
    exact ⟨150, by norm_num [pyRound3, pyRound, obC1]⟩
  refine ⟨hquant, ?_⟩
  exact trade_price_is_maker_price obC1 "b1" .buy 17 1
    { tick_cents := 1/10, bids := [], asks := [], id_counter := 2,
      arrival_counter := 2,
      trades_log := [⟨15, 1, "b1", "s1", 1, 2⟩] } 2 [⟨15, 1, "b1", "s1", 1, 2⟩]
    hquant
    (by norm_num [submitSt, normalizePrice, pyRound3, pyRound, matchBuy,
      insertSortedDesc, obC1])

/-! ### C2: price-time priority of a single submit call -/

/-- C2: the trades of one `submit` call consume the opposite side exactly
from the front — their maker ids and prices are those of the first
`ts.length` resting orders — and when the book is price-time sorted
(strictly better price first, FIFO within a price, the order `submit` alone
maintains) that prefix is `makerPriority`-sorted: maker prices ascend for a
buy taker (descend for a sell taker) and equal-priced makers are consumed in
ascending `arrival_seq` (submission) order. -/
theorem submit_trades_price_time_priority (ob : OrderBook) (agent : String)
    (side : Side) (price qty : ℚ) (ob2 : OrderBook) (oid : ℕ) (ts : List Trade)
    (hsorted : (oppSide ob side).Pairwise (makerPriority side))
    (hsub : submitSt ob agent side price qty = (ob2, .ok (oid, ts))) :
    ts.map (·.maker_order_id) =
      ((oppSide ob side).take ts.length).map (·.order_id) ∧
    ts.map (·.price_cperkwh) =
      ((oppSide ob side).take ts.length).map (·.price_cperkwh) ∧
    ((oppSide ob side).take ts.length).Pairwise (makerPriority side) := by
  by_cases hq : qty ≤ 0
  · simp [submitSt, hq] at hsub
  · by_cases hp : price < 0
    · simp [submitSt, normalizePrice, hq, hp] at hsub
    · cases side with
      | buy =>
        simp only [submitSt, normalizePrice, if_neg hq, if_neg hp] at hsub
        injection hsub with h1 h2
        injection h2 with h3
        injection h3 with h4 h5
        obtain ⟨hid, hpr⟩ := matchBuy_trades_prefix agent (ob.id_counter + 1)
          (pyRound3 ((pyRound (price / ob.tick_cents) : ℚ) * ob.tick_cents))
          ob.asks qty
        subst h5
        exact ⟨hid, hpr, hsorted.sublist (List.take_sublist _ _)⟩
      | sell =>
        simp only [submitSt, normalizePrice, if_neg hq, if_neg hp] at hsub
        injection hsub with h1 h2
        injection h2 with h3
        injection h3 with h4 h5
        obtain ⟨hid, hpr⟩ := matchSell_trades_prefix agent (ob.id_counter + 1)
          (pyRound3 ((pyRound (price / ob.tick_cents) : ℚ) * ob.tick_cents))
          ob.bids qty
        subst h5
        exact ⟨hid, hpr, hsorted.sublist (List.take_sublist _ _)⟩

/-- Witness for C2: two resting asks at the same price 15 submitted `s1`
then `s2`; a crossing buy for 0.7 consumes `s1` fully and then `s2`
partially — pure FIFO at equal price. -/
theorem submit_trades_price_time_priority_witness :
    (oppSide obC2 .buy).Pairwise (makerPriority .buy) ∧
    ([(⟨15, 1/2, "b1", "s1", 1, 3⟩ : Trade), ⟨15, 1/5, "b1", "s2", 2, 3⟩].map
        (·.maker_order_id) =
      ((oppSide obC2 .buy).take 2).map (·.order_id) ∧
    [(⟨15, 1/2, "b1", "s1", 1, 3⟩ : Trade), ⟨15, 1/5, "b1", "s2", 2, 3⟩].map
        (·.price_cperkwh) =
      ((oppSide obC2 .buy).take 2).map (·.price_cperkwh) ∧
    ((oppSide obC2 .buy).take 2).Pairwise (makerPriority .buy)) := by
  have hsorted : (oppSide obC2 .buy).Pairwise (makerPriority .buy) := by
    simp [oppSide, obC2, makerPriority]
  refine ⟨hsorted, ?_⟩
  exact submit_trades_price_time_priority obC2 "b1" .buy 17 (7/10)
    { tick_cents := 1/10, bids := [],
      asks := [⟨2, 15, 3/10, .sell, "s2", 2⟩], id_counter := 3,
      arrival_counter := 3,
      trades_log := [⟨15, 1/2, "b1", "s1", 1, 3⟩, ⟨15, 1/5, "b1", "s2", 2, 3⟩] }
    3 [⟨15, 1/2, "b1", "s1", 1, 3⟩, ⟨15, 1/5, "b1", "s2", 2, 3⟩]
    hsorted
    (by norm_num [submitSt, normalizePrice, pyRound3, pyRound, matchBuy,
      insertSortedDesc, obC2])

/-! ### C3 (amended): the book never rests crossed under uncapped operation -/

lemma bidRel_price {x y : Order} (h : bidRel x y) :
    y.price_cperkwh ≤ x.price_cperkwh := by
  rcases h with h | ⟨h, -⟩
  · exact le_of_lt h
  · exact le_of_eq h.symm

lemma askRel_price {x y : Order} (h : askRel x y) :
    x.price_cperkwh ≤ y.price_cperkwh := by
  rcases h with h | ⟨h, -⟩
  · exact le_of_lt h
  · exact le_of_eq h

lemma sortBids_pairwise (l : List Order) :
    (sortBids l).Pairwise (fun x y => y.price_cperkwh ≤ x.price_cperkwh) :=
  (List.sorted_insertionSort bidRel l).imp (fun h => bidRel_price h)

lemma sortAsks_pairwise (l : List Order) :
    (sortAsks l).Pairwise (fun x y => x.price_cperkwh ≤ y.price_cperkwh) :=
  (List.sorted_insertionSort askRel l).imp (fun h => askRel_price h)

lemma mem_sortBids {x : Order} {l : List Order} : x ∈ sortBids l ↔ x ∈ l :=
  (List.perm_insertionSort bidRel l).mem_iff

lemma mem_sortAsks {x : Order} {l : List Order} : x ∈ sortAsks l ↔ x ∈ l :=
  (List.perm_insertionSort askRel l).mem_iff

/-- When the batch loop returns normally (instead of raising at its first
trade construction) from positive-quantity, price-sorted inputs whose
feeder cap is absent or positive, it stopped on exhaustion or on a strict
price gap: every residual bid is strictly below every residual ask. -/
lemma batchLoop_ok_cross (c : Option ℚ) (b a : List Order)
    (r : List Trade × List Order × List Order)
    (hcap : ∀ cv, c = some cv → 0 < cv)
    (hbp : b.Pairwise (fun x y => y.price_cperkwh ≤ x.price_cperkwh))
    (hap : a.Pairwise (fun x y => x.price_cperkwh ≤ y.price_cperkwh))
    (hbq : ∀ o ∈ b, 0 < o.qty_kwh) (haq : ∀ o ∈ a, 0 < o.qty_kwh)
    (hok : batchLoop c 0 b a = .ok r) :
    ∀ x ∈ r.2.1, ∀ y ∈ r.2.2, x.price_cperkwh < y.price_cperkwh := by
  intro x hx y hy
  rcases b with _ | ⟨bb, btl⟩
  · simp only [batchLoop] at hok
    injection hok with h
    subst h
    exact absurd (show x ∈ ([] : List Order) from hx) (List.not_mem_nil x)
  · rcases a with _ | ⟨aa, atl⟩
    · simp only [batchLoop] at hok
      injection hok with h
      subst h
      exact absurd (show y ∈ ([] : List Order) from hy) (List.not_mem_nil y)
    · have hq0 : 0 < min bb.qty_kwh aa.qty_kwh :=
        lt_min (hbq bb (List.mem_cons_self _ _)) (haq aa (List.mem_cons_self _ _))
      simp only [batchLoop] at hok
      by_cases hlt : bb.price_cperkwh < aa.price_cperkwh
      · rw [if_pos hlt] at hok
        injection hok with h
        subst h
        have hx' : x ∈ bb :: btl := hx
        have hy' : y ∈ aa :: atl := hy
        have hxb : x.price_cperkwh ≤ bb.price_cperkwh := by
          rcases List.mem_cons.mp hx' with rfl | hmem
          · exact le_refl _
          · exact (List.pairwise_cons.mp hbp).1 x hmem
        have hay : aa.price_cperkwh ≤ y.price_cperkwh := by
          rcases List.mem_cons.mp hy' with rfl | hmem
          · exact le_refl _
          · exact (List.pairwise_cons.mp hap).1 y hmem
        calc x.price_cperkwh ≤ bb.price_cperkwh := hxb
          _ < aa.price_cperkwh := hlt
          _ ≤ y.price_cperkwh := hay
      · rw [if_neg hlt] at hok
        rcases c with _ | cv
        · dsimp only at hok
          rw [if_neg (not_le.mpr hq0)] at hok
          exact Except.noConfusion hok
        · have hcv := hcap cv rfl
          have hrem : ¬ max 0 (cv - 0) ≤ 0 := by
            rw [sub_zero]
            exact not_le.mpr (lt_max_iff.mpr (Or.inr hcv))
          dsimp only at hok
          rw [if_neg hrem] at hok
          dsimp only at hok
          have hq : ¬ min (min bb.qty_kwh aa.qty_kwh) (max 0 (cv - 0)) ≤ 0 := by
            rw [sub_zero]
            exact not_le.mpr (lt_min hq0 (lt_max_iff.mpr (Or.inr hcv)))
          rw [if_neg hq] at hok
          exact Except.noConfusion hok

lemma setQtyFirst_strip (oid : ℕ) (q : ℚ) :
    ∀ l : List Order, (setQtyFirst oid q l).map stripQty = l.map stripQty := by
  intro l
  induction l with
  | nil => rfl
  | cons o rest ih =>
    by_cases ho : o.order_id = oid
    · simp [setQtyFirst, ho, stripQty]
    · simp [setQtyFirst, ho, ih]

lemma setQtyFirst_pos {oid : ℕ} {q : ℚ} (hq : 0 < q) :
    ∀ l : List Order, (∀ o ∈ l, 0 < o.qty_kwh) →
      ∀ o ∈ setQtyFirst oid q l, 0 < o.qty_kwh := by
  intro l
  induction l with
  | nil => intro _ o ho; simp [setQtyFirst] at ho
  | cons x rest ih =>
    intro hall o ho
    by_cases hx : x.order_id = oid
    · simp only [setQtyFirst, if_pos hx, List.mem_cons] at ho
      rcases ho with rfl | hmem
      · exact hq
      · exact hall o (List.mem_cons_of_mem _ hmem)
    · simp only [setQtyFirst, if_neg hx, List.mem_cons] at ho
      rcases ho with rfl | hmem
      · exact hall o (List.mem_cons_self _ _)
      · exact ih (fun z hz => hall z (List.mem_cons_of_mem _ hz)) o hmem

/-- Core of `submit` preservation, buy side: for any normalized price `p'`
the post-match book state satisfies the invariant. -/
lemma buy_step_inv (ob : OrderBook) (ag : String) (p' qty : ℚ) (oid seq : ℕ)
    (h : InvBook ob) :
    InvBook { ob with
      bids := if 0 < (matchBuy ag oid p' qty ob.asks).2.1 then
          insertSortedDesc
            ⟨oid, p', (matchBuy ag oid p' qty ob.asks).2.1, .buy, ag, seq⟩ ob.bids
        else ob.bids,
      asks := (matchBuy ag oid p' qty ob.asks).2.2,
      id_counter := oid, arrival_counter := seq,
      trades_log := ob.trades_log ++ (matchBuy ag oid p' qty ob.asks).1 } := by
  obtain ⟨hbp, hap, hbq, haq, hx⟩ := h
  obtain ⟨k, hk⟩ := matchBuy_residual_strip ag oid p' ob.asks qty
  have hap' : (matchBuy ag oid p' qty ob.asks).2.2.Pairwise
      (fun x y => x.price_cperkwh ≤ y.price_cperkwh) :=
    pairwise_price_of_strip_eq hk (hap.sublist (List.drop_sublist _ _))
  refine ⟨?_, hap', ?_, matchBuy_residual_pos ag oid p' ob.asks qty haq, ?_⟩
  · dsimp only
    split_ifs with hrest
    · exact pairwise_insertSortedDesc hbp
    · exact hbp
  · dsimp only
    split_ifs with hrest
    · intro o ho
      rcases (mem_insertSortedDesc _).mp ho with rfl | hmem
      · exact hrest
      · exact hbq o hmem
    · exact hbq
  · dsimp only
    intro b hb y hy
    split_ifs at hb with hrest
    · rcases (mem_insertSortedDesc _).mp hb with rfl | hmem
      · show p' < y.price_cperkwh
        rcases hA : (matchBuy ag oid p' qty ob.asks).2.2 with _ | ⟨hd, tl⟩
        · rw [hA] at hy
          simp at hy
        · rw [hA] at hy
          have hhd : p' < hd.price_cperkwh :=
            matchBuy_exit ag oid p' ob.asks qty hd tl hrest hA
          rcases List.mem_cons.mp hy with rfl | hmem2
          · exact hhd
          · have hle : hd.price_cperkwh ≤ y.price_cperkwh := by
              have h2 := hap'
              rw [hA] at h2
              exact (List.pairwise_cons.mp h2).1 y hmem2
            exact lt_of_lt_of_le hhd hle
      · obtain ⟨a0, ha0, hpr⟩ := mem_price_of_strip_drop hk y hy
        rw [hpr]
        exact hx b hmem a0 ha0
    · obtain ⟨a0, ha0, hpr⟩ := mem_price_of_strip_drop hk y hy
      rw [hpr]
      exact hx b hb a0 ha0

/-- Core of `submit` preservation, sell side. -/
lemma sell_step_inv (ob : OrderBook) (ag : String) (p' qty : ℚ) (oid seq : ℕ)
    (h : InvBook ob) :
    InvBook { ob with
      bids := (matchSell ag oid p' qty ob.bids).2.2,
      asks := if 0 < (matchSell ag oid p' qty ob.bids).2.1 then
          insertSortedAsc
            ⟨oid, p', (matchSell ag oid p' qty ob.bids).2.1, .sell, ag, seq⟩ ob.asks
        else ob.asks,
      id_counter := oid, arrival_counter := seq,
      trades_log := ob.trades_log ++ (matchSell ag oid p' qty ob.bids).1 } := by
  obtain ⟨hbp, hap, hbq, haq, hx⟩ := h
  obtain ⟨k, hk⟩ := matchSell_residual_strip ag oid p' ob.bids qty
  have hbp' : (matchSell ag oid p' qty ob.bids).2.2.Pairwise
      (fun x y => y.price_cperkwh ≤ x.price_cperkwh) :=
    @pairwise_price_of_strip_eq _ _ (fun u v => v ≤ u) hk
      (hbp.sublist (List.drop_sublist _ _))
  refine ⟨hbp', ?_, matchSell_residual_pos ag oid p' ob.bids qty hbq, ?_, ?_⟩
  · dsimp only
    split_ifs with hrest
    · exact pairwise_insertSortedAsc hap
    · exact hap
  · dsimp only
    split_ifs with hrest
    · intro o ho
      rcases (mem_insertSortedAsc _).mp ho with rfl | hmem
      · exact hrest
      · exact haq o hmem
    · exact haq
  · dsimp only
    intro b hb y hy
    split_ifs at hy with hrest
    · rcases (mem_insertSortedAsc _).mp hy with rfl | hmem
      · show b.price_cperkwh < p'
        rcases hB : (matchSell ag oid p' qty ob.bids).2.2 with _ | ⟨hd, tl⟩
        · rw [hB] at hb
          simp at hb
        · rw [hB] at hb
          have hhd : hd.price_cperkwh < p' :=
            matchSell_exit ag oid p' ob.bids qty hd tl hrest hB
          rcases List.mem_cons.mp hb with rfl | hmem2
          · exact hhd
          · have hle : b.price_cperkwh ≤ hd.price_cperkwh := by
              have h2 := hbp'
              rw [hB] at h2
              exact (List.pairwise_cons.mp h2).1 b hmem2
            exact lt_of_le_of_lt hle hhd
      · obtain ⟨b0, hb0, hpr⟩ := mem_price_of_strip_drop hk b hb
        rw [hpr]
        exact hx b0 hb0 y hmem
    · obtain ⟨b0, hb0, hpr⟩ := mem_price_of_strip_drop hk b hb
      rw [hpr]
      exact hx b0 hb0 y hy

lemma submit_preserves_inv (ob : OrderBook) (a : String) (s : Side)
    (price qty : ℚ) (h : InvBook ob) : InvBook (submitSt ob a s price qty).1 := by
  by_cases hq : qty ≤ 0
  · simpa [submitSt, hq] using h
  · by_cases hp : price < 0
    · simpa [submitSt, normalizePrice, hq, hp] using h
    · cases s with
      | buy =>
        simp only [submitSt, normalizePrice, if_neg hq, if_neg hp]
        exact buy_step_inv ob a _ qty (ob.id_counter + 1) (ob.arrival_counter + 1) h
      | sell =>
        simp only [submitSt, normalizePrice, if_neg hq, if_neg hp]
        exact sell_step_inv ob a _ qty (ob.id_counter + 1) (ob.arrival_counter + 1) h

lemma inv_of_sub_books (ob : OrderBook) (bids' asks' : List Order)
    (hb : List.Sublist bids' ob.bids) (ha : List.Sublist asks' ob.asks)
    (h : InvBook ob) :
    InvBook { ob with bids := bids', asks := asks' } := by
  obtain ⟨hbp, hap, hbq, haq, hx⟩ := h
  exact ⟨hbp.sublist hb, hap.sublist ha,
    fun o ho => hbq o (hb.subset ho), fun o ho => haq o (ha.subset ho),
    fun b hbm y hy => hx b (hb.subset hbm) y (ha.subset hy)⟩

lemma cancel_preserves_inv (ob : OrderBook) (oid : ℕ) (h : InvBook ob) :
    InvBook (cancelSt ob oid).1 := by
  unfold cancelSt
  split_ifs with h1 h2
  · exact inv_of_sub_books ob _ ob.asks (List.eraseP_sublist _) (List.Sublist.refl _) h
  · exact inv_of_sub_books ob ob.bids _ (List.Sublist.refl _) (List.eraseP_sublist _) h
  · exact h

lemma modify_preserves_inv (ob : OrderBook) (oid : ℕ)
    (nq np : Option ℚ) (h : InvBook ob) : InvBook (modifySt ob oid nq np).1 := by
  unfold modifySt
  rcases hfind : (ob.bids.find? (fun o => o.order_id == oid)).orElse
      (fun _ => ob.asks.find? (fun o => o.order_id == oid)) with _ | o <;>
    rw [hfind]
  · exact h
  · dsimp only
    rcases np with _ | p
    · rcases nq with _ | q
      · exact h
      · by_cases hq : q ≤ 0
        · simp only [if_pos hq]
          split_ifs with hin
          · exact inv_of_sub_books ob _ ob.asks (List.eraseP_sublist _)
              (List.Sublist.refl _) h
          · exact inv_of_sub_books ob ob.bids _ (List.Sublist.refl _)
              (List.eraseP_sublist _) h
        · obtain ⟨hbp, hap, hbq, haq, hx⟩ := h
          simp only [if_neg hq]
          push_neg at hq
          split_ifs with hin
          · have hstripb : (setQtyFirst oid q ob.bids).map stripQty =
                (ob.bids.drop 0).map stripQty := by
              simpa using setQtyFirst_strip oid q ob.bids
            refine ⟨@pairwise_price_of_strip_eq _ _ (fun u v => v ≤ u)
                (setQtyFirst_strip oid q ob.bids) hbp,
              hap, setQtyFirst_pos hq ob.bids hbq, haq, ?_⟩
            intro b hb y hy
            obtain ⟨b0, hb0, hpr⟩ := mem_price_of_strip_drop hstripb b hb
            rw [hpr]
            exact hx b0 hb0 y hy
          · have hstripa : (setQtyFirst oid q ob.asks).map stripQty =
                (ob.asks.drop 0).map stripQty := by
              simpa using setQtyFirst_strip oid q ob.asks
            refine ⟨hbp,
              pairwise_price_of_strip_eq (setQtyFirst_strip oid q ob.asks) hap,
              hbq, setQtyFirst_pos hq ob.asks haq, ?_⟩
            intro b hb y hy
            obtain ⟨a0, ha0, hpr⟩ := mem_price_of_strip_drop hstripa y hy
            rw [hpr]
            exact hx b hb a0 ha0
    · split_ifs with hin
      · exact submit_preserves_inv _ _ _ _ _
          (inv_of_sub_books ob _ ob.asks (List.eraseP_sublist _)
            (List.Sublist.refl _) h)
      · exact submit_preserves_inv _ _ _ _ _
          (inv_of_sub_books ob ob.bids _ (List.Sublist.refl _)
            (List.eraseP_sublist _) h)

lemma stepCall_preserves_inv (ob : OrderBook) (nb na : List Order)
    (cap : Option ℚ) (h : InvBook ob) (hpos : ∀ o ∈ nb ++ na, 0 < o.qty_kwh)
    (hcap : ∀ cv, cap = some cv → 0 < cv) :
    InvBook (stepCall ob nb na cap).1 := by
  obtain ⟨hbp, hap, hbq, haq, hx⟩ := h
  have hBpos : ∀ o ∈ sortBids (ob.bids ++ nb), 0 < o.qty_kwh := by
    intro o ho
    rcases List.mem_append.mp (mem_sortBids.mp ho) with hm | hm
    · exact hbq o hm
    · exact hpos o (List.mem_append_left _ hm)
  have hApos : ∀ o ∈ sortAsks (ob.asks ++ na), 0 < o.qty_kwh := by
    intro o ho
    rcases List.mem_append.mp (mem_sortAsks.mp ho) with hm | hm
    · exact haq o hm
    · exact hpos o (List.mem_append_right _ hm)
  unfold stepCall batchMatch
  rcases hbl : batchLoop cap 0 (sortBids (ob.bids ++ nb)) (sortAsks (ob.asks ++ na))
    with e | r
  · exact ⟨hbp, hap, hbq, haq, hx⟩
  · refine ⟨sortBids_pairwise _, sortAsks_pairwise _, ?_, ?_, ?_⟩
    · intro o ho
      exact of_decide_eq_true (List.mem_filter.mp (mem_sortBids.mp ho)).2
    · intro o ho
      exact of_decide_eq_true (List.mem_filter.mp (mem_sortAsks.mp ho)).2
    · intro b hb y hy
      have hbmem := (List.mem_filter.mp (mem_sortBids.mp hb)).1
      have hymem := (List.mem_filter.mp (mem_sortAsks.mp hy)).1
      exact batchLoop_ok_cross cap (sortBids (ob.bids ++ nb))
        (sortAsks (ob.asks ++ na)) r hcap (sortBids_pairwise _)
        (sortAsks_pairwise _) hBpos hApos hbl b hbmem y hymem

lemma applyOp_preserves_inv (ob : OrderBook) (op : BookOp)
    (h : InvBook ob) (hop : OpPosQty op) : InvBook (applyOp ob op) := by
  cases op with
  | submitOp a s p q => exact submit_preserves_inv ob a s p q h
  | cancelOp oid => exact cancel_preserves_inv ob oid h
  | modifyOp oid nq np => exact modify_preserves_inv ob oid nq np h
  | callClearOp nb na cap =>
    obtain ⟨h1, h2⟩ := hop
    exact stepCall_preserves_inv ob nb na cap h h1 h2

lemma emptyBook_inv : InvBook emptyBook := by
  refine ⟨?_, ?_, ?_, ?_, ?_⟩ <;> simp [emptyBook]

lemma applyOps_inv :
    ∀ (ops : List BookOp) (ob : OrderBook), InvBook ob →
      (∀ op ∈ ops, OpPosQty op) → InvBook (applyOps ob ops) := by
  intro ops
  induction ops with
  | nil => intro ob h _; exact h
  | cons op rest ih =>
    intro ob h hpos
    simp only [applyOps, List.foldl_cons]
    exact ih (applyOp ob op)
      (applyOp_preserves_inv ob op h (hpos op (List.mem_cons_self _ _)))
      (fun o ho => hpos o (List.mem_cons_of_mem _ ho))

/-- C3 (amended): after any sequence of `submit`/`cancel`/`modify` calls and
of call-auction clearing steps whose feeder energy cap is absent or
positive (and whose postings have positive quantity, as
`step_interval_call` guarantees), whenever `best_bid()` and `best_ask()`
both return a price the bid is strictly below the ask: the book never rests
crossed.  A clearing step that would match a trade raises `TypeError` at
its `Trade(...)` constructor call before the book is reassigned, which also
leaves the invariant intact.  The exclusion is a clearing step with a
non-positive feeder energy cap (`feeder_limit_kw ≤ 0`): its cap break fires
before any trade is constructed, so it completes normally and can rest a
crossed book — see the counterexample. -/
theorem no_cross_after_ops (ops : List BookOp)
    (hpos : ∀ op ∈ ops, OpPosQty op) (pb pa : ℚ)
    (hb : bestBid (applyOps emptyBook ops) = some pb)
    (ha : bestAsk (applyOps emptyBook ops) = some pa) :
    pb < pa := by
  obtain ⟨-, -, -, -, hx⟩ := applyOps_inv ops emptyBook emptyBook_inv hpos
  unfold bestBid at hb
  unfold bestAsk at ha
  rcases hB : (applyOps emptyBook ops).bids with _ | ⟨b0, btl⟩
  · rw [hB] at hb
    simp at hb
  · rcases hA : (applyOps emptyBook ops).asks with _ | ⟨a0, atl⟩
    · rw [hA] at ha
      simp at ha
    · rw [hB] at hb
      rw [hA] at ha
      simp only [List.head?_cons, Option.map_some', Option.some.injEq] at hb ha
      rw [← hb, ← ha]
      exact hx b0 (by rw [hB]; exact List.mem_cons_self _ _)
        a0 (by rw [hA]; exact List.mem_cons_self _ _)

/-- Witness for the amended C3: a resting ask at 15 then a non-crossing bid
at 10 leave `best_bid = 10 < 15 = best_ask`. -/
theorem no_cross_after_ops_witness :
    (∀ op ∈ opsW, OpPosQty op) ∧
    bestBid (applyOps emptyBook opsW) = some 10 ∧
    bestAsk (applyOps emptyBook opsW) = some 15 ∧ (10 : ℚ) < 15 := by
  have hpos : ∀ op ∈ opsW, OpPosQty op := by
    intro op hop
    rcases List.mem_cons.mp hop with rfl | hop2
    · trivial
    · rcases List.mem_cons.mp hop2 with rfl | hop3
      · trivial
      · simp [opsW] at hop3
  have hb : bestBid (applyOps emptyBook opsW) = some 10 := by
    norm_num [opsW, applyOps, applyOp, submitSt, normalizePrice, pyRound3,
      pyRound, matchBuy, matchSell, insertSortedAsc, insertSortedDesc,
      emptyBook, bestBid]
  have ha : bestAsk (applyOps emptyBook opsW) = some 15 := by
    norm_num [opsW, applyOps, applyOp, submitSt, normalizePrice, pyRound3,
      pyRound, matchBuy, matchSell, insertSortedAsc, insertSortedDesc,
      emptyBook, bestAsk]
  exact ⟨hpos, hb, ha, no_cross_after_ops opsW hpos 10 15 hb ha⟩

end P2P
